import Mathlib

/-!
Verification of the block-document core of the `mycms` repository
(`src/unnamed/part_000` server + editor code, `src/config.js` server copy).

The JavaScript source operates on JSON-like dynamic values.  We embed those
values as the inductive type `JsVal` (JS `undefined`, `null`, booleans,
numbers, strings, arrays, objects).  JSON/JS numbers are modelled exactly as
a decimal mantissa/exponent pair `num m e` (value `m * 10^e`); none of the
verified claims depends on IEEE-754 rounding.  Objects are ordered key/value
lists, as produced by `JSON.parse` and object literals (keys unique).

Each embedded definition carries a comment naming the source function it
translates.
-/

namespace Mycms

/-- A JSON/JavaScript value. -/
inductive JsVal where
  | undefined : JsVal
  | null : JsVal
  | bool (b : Bool) : JsVal
  | num (m : Int) (e : Int) : JsVal
  | str (s : String) : JsVal
  | arr (elems : List JsVal) : JsVal
  | obj (fields : List (String × JsVal)) : JsVal

/-- JS property access `v.k` on a dynamic value: the field of an object,
`undefined` otherwise (and `undefined` for a missing key). -/
def getField : JsVal → String → JsVal
  | .obj fs, k => ((fs.lookup k).getD .undefined)
  | _, _ => .undefined

/-- JS truthiness: `undefined`, `null`, `false`, `0`, `""` are falsy;
every array and object is truthy.  (`NaN` does not arise in the model.) -/
def jsTruthy : JsVal → Bool
  | .undefined => false
  | .null => false
  | .bool b => b
  | .num m _ => m != 0
  | .str s => !s.isEmpty
  | .arr _ => true
  | .obj _ => true

theorem sizeOf_lookup {fs : List (String × JsVal)} {k : String} {v : JsVal}
    (h : fs.lookup k = some v) : sizeOf v < sizeOf fs := by
  induction fs with
  | nil => simp [List.lookup] at h
  | cons a rest ih =>
    rw [List.lookup] at h
    split at h
    · cases h; cases a; simp; omega
    · have := ih h
      cases a; simp; omega

/-- The `String()` coercion used by the source (`String(node.content)`,
`String(p.id)`).  Arrays stringify by joining element strings with `","`
(with `null`/`undefined` elements contributing the empty string), objects
as `"[object Object]"`; integral numbers print their decimal digits. -/
def natDigitsLE : Nat → List Nat
  | 0 => []
  | n+1 => ((n+1) % 10) :: natDigitsLE ((n+1) / 10)
decreasing_by exact Nat.div_lt_self (Nat.succ_pos n) (by omega)

def natToString (n : Nat) : String :=
  if n = 0 then "0"
  else String.mk ((natDigitsLE n).reverse.map (fun d => Char.ofNat (48 + d)))

/-- Decimal rendering of the model's numbers: `m * 10^e` for `e ≥ 0` as an
integer, otherwise integer part, `'.'`, fraction with trailing zeros
stripped (matching how JS prints such values). -/
def stripZeros : List Char → List Char
  | [] => []
  | '0' :: rest => stripZeros rest
  | l => l

def numToString (m : Int) (e : Int) : String :=
  let sign := if m < 0 then "-" else ""
  let a := m.natAbs
  if 0 ≤ e then sign ++ natToString (a * 10 ^ e.toNat)
  else
    let k := (-e).toNat
    let ip := a / 10 ^ k
    let fracDigits := (natToString (10 ^ k + a % 10 ^ k)).drop 1
    let frac := String.mk (stripZeros fracDigits.data.reverse).reverse
    if frac.isEmpty then sign ++ natToString ip
    else sign ++ natToString ip ++ "." ++ frac

mutual

def jsString : JsVal → String
  | .undefined => "undefined"
  | .null => "null"
  | .bool true => "true"
  | .bool false => "false"
  | .num m e => numToString m e
  | .str s => s
  | .arr l => String.intercalate "," (jsStringElems l)
  | .obj _ => "[object Object]"
  termination_by v => sizeOf v

def jsStringElems : List JsVal → List String
  | [] => []
  | x :: xs =>
    (match x with
      | .null => ""
      | .undefined => ""
      | y => jsString y) :: jsStringElems xs
  termination_by l => sizeOf l
  decreasing_by
  all_goals (simp; try omega)

end

theorem sizeOf_fs_pos (fs : List (String × JsVal)) : 0 < sizeOf fs := by
  cases fs <;> simp

def typeIs (node : JsVal) (t : String) : Bool :=
  match getField node "type" with
  | .str s => s == t
  | _ => false

def childSeqs (node : JsVal) : List JsVal :=
  match getField node "children" with
  | .arr l => l
  | _ => []

theorem typeIs_eq_true {node : JsVal} {t : String} (h : typeIs node t = true) :
    ∃ fs, node = JsVal.obj fs := by
  cases node <;> simp [typeIs, getField] at h
  exact ⟨_, rfl⟩

theorem sizeOf_childSeqs {node : JsVal} {t : String} (h : typeIs node t = true) :
    sizeOf (childSeqs node) < sizeOf node := by
  obtain ⟨fs, rfl⟩ := typeIs_eq_true h
  have hpos := sizeOf_fs_pos fs
  unfold childSeqs
  rcases hg : getField (JsVal.obj fs) "children" with _ | _ | _ | _ | _ | l | _
  all_goals simp only []
  case arr =>
    rcases hg' : (fs.lookup "children") with _ | w
    · simp [getField, hg'] at hg
    · simp [getField, hg'] at hg
      subst hg
      have := sizeOf_lookup hg'
      simp at this ⊢
      omega
  all_goals (simp; omega)

mutual
def walk (acc : List String) (node : JsVal) : List String :=
  if !jsTruthy node then acc
  else match node with
    | .arr l => walkList acc l
    | nd =>
      if typeIs nd "heading" || typeIs nd "paragraph" then
        if jsTruthy (getField nd "content") then acc ++ [jsString (getField nd "content")]
        else acc
      else if typeIs nd "columns" then walkCols acc (childSeqs nd)
      else if typeIs nd "grid" then walkList acc (childSeqs nd)
      else acc
  termination_by sizeOf node
  decreasing_by
  all_goals first
    | (exact sizeOf_childSeqs (by assumption))
    | (simp; try omega)

def walkCol (acc : List String) (c : JsVal) : List String :=
  match c with
  | .arr elems => walkList acc elems
  | _ => acc
  termination_by sizeOf c
  decreasing_by
  all_goals (simp; try omega)

def walkList (acc : List String) (l : List JsVal) : List String :=
  match l with
  | [] => acc
  | x :: xs => walkList (walk acc x) xs
  termination_by sizeOf l
  decreasing_by
  all_goals (simp; try omega)

def walkCols (acc : List String) (cols : List JsVal) : List String :=
  match cols with
  | [] => acc
  | c :: rest => walkCols (walkCol acc c) rest
  termination_by sizeOf cols
  decreasing_by
  all_goals (simp; try omega)
end

theorem walk_fusion : ∀ (n : Nat),
    (∀ (node : JsVal) (acc : List String), sizeOf node ≤ n →
      walk acc node = acc ++ walk [] node)
    ∧ (∀ (c : JsVal) (acc : List String), sizeOf c ≤ n →
      walkCol acc c = acc ++ walkCol [] c)
    ∧ (∀ (l : List JsVal) (acc : List String), sizeOf l ≤ n →
      walkList acc l = acc ++ walkList [] l)
    ∧ (∀ (cols : List JsVal) (acc : List String), sizeOf cols ≤ n →
      walkCols acc cols = acc ++ walkCols [] cols) := by
  intro n
  induction n using Nat.strong_induction_on with
  | _ n ih =>
    have ihw : ∀ (node : JsVal) (acc : List String), sizeOf node < n →
        walk acc node = acc ++ walk [] node := fun node acc h =>
      (ih (sizeOf node) h).1 node acc (le_refl _)
    have ihl : ∀ (l : List JsVal) (acc : List String), sizeOf l < n →
        walkList acc l = acc ++ walkList [] l := fun l acc h =>
      (ih (sizeOf l) h).2.2.1 l acc (le_refl _)
    have ihcol : ∀ (c : JsVal) (acc : List String), sizeOf c < n →
        walkCol acc c = acc ++ walkCol [] c := fun c acc h =>
      (ih (sizeOf c) h).2.1 c acc (le_refl _)
    have ihcols : ∀ (cols : List JsVal) (acc : List String), sizeOf cols < n →
        walkCols acc cols = acc ++ walkCols [] cols := fun cols acc h =>
      (ih (sizeOf cols) h).2.2.2 cols acc (le_refl _)
    refine ⟨?_, ?_, ?_, ?_⟩
    · intro node acc hn
      match node with
      | .arr l =>
        have hl : sizeOf l < sizeOf (JsVal.arr l) := by simp; try omega
        simp only [walk, jsTruthy, Bool.not_true, Bool.false_eq_true, if_false]
        rw [ihl l acc (by omega)]
      | .obj fs =>
        simp only [walk, jsTruthy, Bool.not_true, Bool.false_eq_true, if_false]
        by_cases h1 : (typeIs (JsVal.obj fs) "heading" || typeIs (JsVal.obj fs) "paragraph") = true
        · rw [if_pos h1, if_pos h1]
          split <;> simp
        · rw [if_neg h1, if_neg h1]
          by_cases h2 : typeIs (JsVal.obj fs) "columns" = true
          · rw [if_pos h2, if_pos h2]
            have hsz := sizeOf_childSeqs h2
            rw [ihcols _ acc (by omega)]
          · rw [if_neg h2, if_neg h2]
            by_cases h3 : typeIs (JsVal.obj fs) "grid" = true
            · rw [if_pos h3, if_pos h3]
              have hsz := sizeOf_childSeqs h3
              rw [ihl _ acc (by omega)]
            · rw [if_neg h3, if_neg h3]
              simp
      | .undefined => simp [walk, jsTruthy]
      | .null => simp [walk, jsTruthy]
      | .bool b => cases b <;> simp [walk, typeIs, getField, jsTruthy]
      | .num m e =>
        by_cases hm : m = 0 <;> simp [walk, typeIs, getField, jsTruthy, hm]
      | .str s =>
        by_cases hs : s.isEmpty <;> simp [walk, typeIs, getField, jsTruthy, hs]
    · intro c acc hn
      match c with
      | .arr elems =>
        have he : sizeOf elems < sizeOf (JsVal.arr elems) := by simp; try omega
        simp only [walkCol]
        rw [ihl elems acc (by omega)]
      | .undefined | .null | .bool _ | .num _ _ | .str _ | .obj _ =>
        simp [walkCol]
    · intro l acc hn
      match l with
      | [] => simp [walkList]
      | x :: xs =>
        have hx : sizeOf x < sizeOf (x :: xs) := by simp; try omega
        have hxs : sizeOf xs < sizeOf (x :: xs) := by simp; try omega
        calc walkList acc (x :: xs) = walkList (walk acc x) xs := by rw [walkList]
          _ = walk acc x ++ walkList [] xs := ihl xs _ (by omega)
          _ = (acc ++ walk [] x) ++ walkList [] xs := by rw [ihw x acc (by omega)]
          _ = acc ++ (walk [] x ++ walkList [] xs) := by simp
          _ = acc ++ walkList (walk [] x) xs := by rw [ihl xs (walk [] x) (by omega)]
          _ = acc ++ walkList [] (x :: xs) := by rw [walkList]
    · intro cols acc hn
      match cols with
      | [] => simp [walkCols]
      | c :: rest =>
        have hc : sizeOf c < sizeOf (c :: rest) := by simp; try omega
        have hrest : sizeOf rest < sizeOf (c :: rest) := by simp; try omega
        calc walkCols acc (c :: rest) = walkCols (walkCol acc c) rest := by rw [walkCols]
          _ = walkCol acc c ++ walkCols [] rest := ihcols rest _ (by omega)
          _ = (acc ++ walkCol [] c) ++ walkCols [] rest := by rw [ihcol c acc (by omega)]
          _ = acc ++ (walkCol [] c ++ walkCols [] rest) := by simp
          _ = acc ++ walkCols (walkCol [] c) rest := by rw [ihcols rest (walkCol [] c) (by omega)]
          _ = acc ++ walkCols [] (c :: rest) := by rw [walkCols]

theorem walk_append (node : JsVal) (acc : List String) :
    walk acc node = acc ++ walk [] node :=
  (walk_fusion (sizeOf node)).1 node acc (le_refl _)

theorem walkList_append (l : List JsVal) (acc : List String) :
    walkList acc l = acc ++ walkList [] l :=
  (walk_fusion (sizeOf l)).2.2.1 l acc (le_refl _)

/-- The lines of a top-level block sequence are the concatenation of the
lines of its members, in order. -/
theorem walkList_flatMap (l : List JsVal) :
    walkList [] l = l.flatMap (fun b => walk [] b) := by
  induction l with
  | nil => simp [walkList]
  | cons x xs ih =>
    rw [walkList, walkList_append xs (walk [] x), ih]
    simp

/-- `extractPlainTextFromBlocks(blocks)`: run the walk with an empty `lines`
array and join with a single newline (`lines.join("\n")`), hence no
trailing newline. -/
def extractPlainTextFromBlocks (blocks : JsVal) : String :=
  String.intercalate "\n" (walk [] blocks)

/-!
`tryParseJson` (src/unnamed/part_000 lines 172-178): `JSON.parse` wrapped in
try/catch, returning `null` (modelled as `none`) on failure.  `JSON.parse`
itself is a JS builtin; we model its grammar: optional whitespace around
tokens, objects, arrays, strings with escapes, `true`/`false`/`null`, and
numbers (no leading zeros, optional fraction and exponent).  The parser is
fuel-indexed; the fuel bounds the depth of nesting plus the number of
sequence elements along any chain of recursive calls, and `2 * length + 2`
suffices for every input this development evaluates concretely.
-/

def isJsonWs (c : Char) : Bool :=
  c == ' ' || c == '\t' || c == '\n' || c == '\r'

def skipWs : List Char → List Char
  | [] => []
  | c :: rest => if isJsonWs c then skipWs rest else c :: rest

def isDigitChar (c : Char) : Bool := decide ('0' ≤ c) && decide (c ≤ '9')

def digitVal (c : Char) : Nat := c.toNat - 48

/-- Longest digit prefix and the remainder. -/
def takeDigits : List Char → List Char × List Char
  | [] => ([], [])
  | c :: rest =>
    if isDigitChar c then
      let p := takeDigits rest
      (c :: p.1, p.2)
    else ([], c :: rest)

def digitsToNat (ds : List Char) : Nat :=
  ds.foldl (fun a c => a * 10 + digitVal c) 0

def isHexChar (c : Char) : Bool :=
  isDigitChar c || (decide ('a' ≤ c) && decide (c ≤ 'f')) ||
    (decide ('A' ≤ c) && decide (c ≤ 'F'))

def hexVal (c : Char) : Nat :=
  if isDigitChar c then c.toNat - 48
  else if decide ('a' ≤ c) && decide (c ≤ 'f') then c.toNat - 87
  else c.toNat - 55

/-- Body of a JSON string after the opening quote, `acc` in reverse order.
A `\u` escape must denote a Unicode scalar value in this model (JS would
admit lone surrogates; no claim exercises them). -/
def parseStrBody : List Char → List Char → Option (String × List Char)
  | acc, '"' :: rest => some (String.mk acc.reverse, rest)
  | acc, '\\' :: e :: rest =>
    match e with
    | '"' => parseStrBody ('"' :: acc) rest
    | '\\' => parseStrBody ('\\' :: acc) rest
    | '/' => parseStrBody ('/' :: acc) rest
    | 'b' => parseStrBody ('\x08' :: acc) rest
    | 'f' => parseStrBody ('\x0c' :: acc) rest
    | 'n' => parseStrBody ('\n' :: acc) rest
    | 'r' => parseStrBody ('\r' :: acc) rest
    | 't' => parseStrBody ('\t' :: acc) rest
    | 'u' =>
      match rest with
      | h1 :: h2 :: h3 :: h4 :: rest2 =>
        if isHexChar h1 && isHexChar h2 && isHexChar h3 && isHexChar h4 then
          let code := ((hexVal h1 * 16 + hexVal h2) * 16 + hexVal h3) * 16 + hexVal h4
          parseStrBody (Char.ofNat code :: acc) rest2
        else none
      | _ => none
    | _ => none
  | acc, c :: rest =>
    if c.toNat < 32 then none else parseStrBody (c :: acc) rest
  | _, [] => none

/-- JSON number: `-? int frac? exp?`, integer part without leading zeros.
Returns the value as mantissa and decimal exponent. -/
def parseNumber (cs : List Char) : Option (JsVal × List Char) :=
  let sp := match cs with
    | '-' :: r => (true, r)
    | _ => (false, cs)
  let neg := sp.1
  match sp.2 with
  | [] => none
  | c :: r =>
    if !isDigitChar c then none
    else if c = '0' && (match r with | d :: _ => isDigitChar d | [] => false) then none
    else
      let ip :=
        if c = '0' then (([c] : List Char), r)
        else
          let p := takeDigits r
          (c :: p.1, p.2)
      let intDs := ip.1
      let fp : Option (List Char) × List Char :=
        match ip.2 with
        | '.' :: q =>
          let p := takeDigits q
          (some p.1, p.2)
        | _ => (none, ip.2)
      match fp.1 with
      | some [] => none
      | _ =>
        let fds := fp.1.getD []
        let ep : Bool × Int × List Char :=
          match fp.2 with
          | 'e' :: q | 'E' :: q =>
            let sq : Int × List Char :=
              match q with
              | '+' :: q2 => (1, q2)
              | '-' :: q2 => (-1, q2)
              | _ => (1, q)
            let p := takeDigits sq.2
            if p.1.isEmpty then (false, 0, p.2)
            else (true, sq.1 * (digitsToNat p.1 : Int), p.2)
          | _ => (true, 0, fp.2)
        if !ep.1 then none
        else
          let mag : Nat := digitsToNat (intDs ++ fds)
          let m : Int := if neg then -(mag : Int) else (mag : Int)
          some (.num m (ep.2.1 - fds.length), ep.2.2)

mutual

def parseVal : Nat → List Char → Option (JsVal × List Char)
  | 0, _ => none
  | fuel+1, cs =>
    match skipWs cs with
    | '{' :: r => parseObjBody fuel r
    | '[' :: r => parseArrBody fuel r
    | '"' :: r => (parseStrBody [] r).map (fun p => (.str p.1, p.2))
    | 't' :: 'r' :: 'u' :: 'e' :: r => some (.bool true, r)
    | 'f' :: 'a' :: 'l' :: 's' :: 'e' :: r => some (.bool false, r)
    | 'n' :: 'u' :: 'l' :: 'l' :: r => some (.null, r)
    | other => parseNumber other

def parseArrBody : Nat → List Char → Option (JsVal × List Char)
  | 0, _ => none
  | fuel+1, cs =>
    match skipWs cs with
    | ']' :: r => some (.arr [], r)
    | _ => parseArrItems fuel cs []

def parseArrItems : Nat → List Char → List JsVal → Option (JsVal × List Char)
  | 0, _, _ => none
  | fuel+1, cs, acc =>
    match parseVal fuel cs with
    | none => none
    | some (v, r) =>
      match skipWs r with
      | ',' :: r2 => parseArrItems fuel r2 (v :: acc)
      | ']' :: r2 => some (.arr (v :: acc).reverse, r2)
      | _ => none

def parseObjBody : Nat → List Char → Option (JsVal × List Char)
  | 0, _ => none
  | fuel+1, cs =>
    match skipWs cs with
    | '}' :: r => some (.obj [], r)
    | _ => parseObjItems fuel cs []

def parseObjItems : Nat → List Char → List (String × JsVal) → Option (JsVal × List Char)
  | 0, _, _ => none
  | fuel+1, cs, acc =>
    match skipWs cs with
    | '"' :: r =>
      match parseStrBody [] r with
      | none => none
      | some (k, r1) =>
        match skipWs r1 with
        | ':' :: r2 =>
          match parseVal fuel r2 with
          | none => none
          | some (v, r3) =>
            match skipWs r3 with
            | ',' :: r4 => parseObjItems fuel r4 ((k, v) :: acc)
            | '}' :: r4 => some (.obj ((k, v) :: acc).reverse, r4)
            | _ => none
        | _ => none
    | _ => none

end

/-- `tryParseJson(str)`: `JSON.parse` with failures mapped to `none`
(the source returns `null`, used only as a failure signal). -/
def tryParseJson (s : String) : Option JsVal :=
  match parseVal (2 * s.length + 2) s.data with
  | some (v, rest) => if (skipWs rest).isEmpty then some v else none
  | none => none

/-!
`migratePostsIfNeeded` (src/unnamed/part_000 lines 217-245, identical copy
in src/config.js lines 250-275).  A post follows the wire schema of spec §6;
`blocks` may hold a real sequence, a legacy encoded string, or `null`, and
`content` any legacy value, so both are dynamic `JsVal`s, as are the fields
the migration never touches.
-/

structure Post where
  id : JsVal
  title : JsVal
  content : JsVal
  blocks : JsVal
  image : JsVal
  date : JsVal
  sectionId : JsVal

/-- The stored document: `readData` yields `{ sections, posts, nextSectionId }`
with `posts` an array of posts. -/
structure StoredData where
  sections : JsVal
  posts : List Post
  nextSectionId : JsVal

/-- Whitespace stripped by `String.prototype.trim` (the characters that
occur in stored documents; JS also strips rarer Unicode spaces). -/
def isTrimWs (c : Char) : Bool :=
  c == ' ' || c == '\t' || c == '\n' || c == '\r' || c == '\x0b' || c == '\x0c'

def dropLeadingWs : List Char → List Char
  | [] => []
  | c :: rest => if isTrimWs c then dropLeadingWs rest else c :: rest

/-- `String.prototype.trim`: strip whitespace from both ends. -/
def jsTrim (s : String) : String :=
  String.mk (dropLeadingWs (dropLeadingWs s.data).reverse).reverse

/-- `String.prototype.startsWith`. -/
def strStartsWith (s pre : String) : Bool :=
  listPrefix pre.data s.data
where
  listPrefix : List Char → List Char → Bool
    | [], _ => true
    | _ :: _, [] => false
    | a :: as, b :: bs => a == b && listPrefix as bs

/-- `typeof x === "string" && x.trim().startsWith("[")` — the source's
heuristic for "content still looks like JSON". -/
def looksLikeJsonArray : JsVal → Bool
  | .str s => strStartsWith (jsTrim s) "["
  | _ => false

/-- First `if` of the loop body: if `post.blocks` is a string that parses to
an array, adopt the parsed array, regenerate `content` when it still looks
like JSON, and flag the change. -/
def migrateStep1 (p : Post) : Post × Bool :=
  match p.blocks with
  | .str s =>
    match tryParseJson s with
    | some (.arr l) =>
      ({ p with
          blocks := .arr l
          content :=
            if looksLikeJsonArray p.content then
              .str (extractPlainTextFromBlocks (.arr l))
            else p.content },
        true)
    | _ => (p, false)
  | _ => (p, false)

/-- Second `if` of the loop body: if `post.blocks` is (still) not an array
and `content` is a string that looks like and parses to an array, adopt it
as `blocks` and regenerate `content`. -/
def migrateStep2 (p : Post) : Post × Bool :=
  match p.blocks with
  | .arr _ => (p, false)
  | _ =>
    match p.content with
    | .str c =>
      if strStartsWith (jsTrim c) "[" then
        match tryParseJson c with
        | some (.arr l) =>
          ({ p with
              blocks := .arr l
              content := .str (extractPlainTextFromBlocks (.arr l)) },
            true)
        | _ => (p, false)
      else (p, false)
    | _ => (p, false)

/-- One iteration of the `for (const post of out.posts)` loop: both `if`s in
order, reporting whether either fired. -/
def migratePost (p : Post) : Post × Bool :=
  ((migrateStep2 (migrateStep1 p).1).1,
    (migrateStep1 p).2 || (migrateStep2 (migrateStep1 p).1).2)

/-- `migratePostsIfNeeded(data)`: shallow-copy the document, run the loop
over copied posts, and return the `changed` flag (the disjunction of the
per-post flags) together with the rewritten document.  The source also
guards `Array.isArray(out.posts)`, replacing a non-array `posts` with `[]`;
the storage schema types `posts` as an array, which `StoredData` reflects,
so that guard's else-branch has no counterpart here. -/
def migratePostsIfNeeded (d : StoredData) : Bool × StoredData :=
  ((d.posts.map migratePost).any (fun r => r.2),
    { d with posts := (d.posts.map migratePost).map (fun r => r.1) })

theorem migrateStep1_cases (p : Post) :
    migrateStep1 p = (p, false) ∨
    ∃ l c, migrateStep1 p =
      ({ p with blocks := JsVal.arr l, content := c }, true) := by
  unfold migrateStep1
  split
  · split
    · right; exact ⟨_, _, rfl⟩
    · left; rfl
  · left; rfl

theorem migrateStep2_cases (p : Post) :
    migrateStep2 p = (p, false) ∨
    ∃ l c, migrateStep2 p =
      ({ p with blocks := JsVal.arr l, content := c }, true) := by
  unfold migrateStep2
  split
  · left; rfl
  · split
    · split
      · split
        · right; exact ⟨_, _, rfl⟩
        · left; rfl
      · left; rfl
    · left; rfl

theorem migrateStep1_false {p : Post} (h : (migrateStep1 p).2 = false) :
    (migrateStep1 p).1 = p := by
  rcases migrateStep1_cases p with h1 | ⟨l, c, h1⟩
  · rw [h1]
  · rw [h1] at h; simp at h

theorem migrateStep1_fired {p : Post} (h : (migrateStep1 p).2 = true) :
    ∃ l, (migrateStep1 p).1.blocks = JsVal.arr l := by
  rcases migrateStep1_cases p with h1 | ⟨l, c, h1⟩
  · rw [h1] at h; simp at h
  · rw [h1]; exact ⟨l, rfl⟩

theorem migrateStep2_false {p : Post} (h : (migrateStep2 p).2 = false) :
    (migrateStep2 p).1 = p := by
  rcases migrateStep2_cases p with h1 | ⟨l, c, h1⟩
  · rw [h1]
  · rw [h1] at h; simp at h

theorem migrateStep2_fired {p : Post} (h : (migrateStep2 p).2 = true) :
    ∃ l, (migrateStep2 p).1.blocks = JsVal.arr l := by
  rcases migrateStep2_cases p with h1 | ⟨l, c, h1⟩
  · rw [h1] at h; simp at h
  · rw [h1]; exact ⟨l, rfl⟩

theorem migrateStep1_arr {p : Post} {l : List JsVal} (h : p.blocks = JsVal.arr l) :
    migrateStep1 p = (p, false) := by
  unfold migrateStep1
  split
  · next s heq => rw [h] at heq; cases heq
  · rfl

theorem migrateStep2_arr {p : Post} {l : List JsVal} (h : p.blocks = JsVal.arr l) :
    migrateStep2 p = (p, false) := by
  unfold migrateStep2
  split
  · rfl
  · next hno => exact absurd h (by intro hh; exact hno l hh)

theorem migratePost_blocks_arr {p : Post} {l : List JsVal} (h : p.blocks = JsVal.arr l) :
    migratePost p = (p, false) := by
  unfold migratePost
  rw [migrateStep1_arr h]
  simp [migrateStep2_arr h]

/-- Running the loop body a second time on its own output changes nothing. -/
theorem migratePost_idem (p : Post) :
    migratePost (migratePost p).1 = ((migratePost p).1, false) := by
  cases h1 : (migrateStep1 p).2 with
  | true =>
    obtain ⟨l, hl⟩ := migrateStep1_fired h1
    have hs2 := migrateStep2_arr hl
    have hq : (migratePost p).1 = (migrateStep1 p).1 := by
      unfold migratePost
      rw [hs2]
    rw [hq]
    exact migratePost_blocks_arr hl
  | false =>
    have he1 : (migrateStep1 p).1 = p := migrateStep1_false h1
    cases h2 : (migrateStep2 p).2 with
    | true =>
      obtain ⟨l, hl⟩ := migrateStep2_fired h2
      have hq : (migratePost p).1 = (migrateStep2 p).1 := by
        unfold migratePost
        rw [he1]
      rw [hq]
      exact migratePost_blocks_arr hl
    | false =>
      have he2 : (migrateStep2 p).1 = p := migrateStep2_false h2
      have hmp : migratePost p = (p, false) := by
        unfold migratePost
        rw [he1, he2, h1, h2]
        simp
      rw [hmp]
      exact hmp

/-- The loop body touches only `blocks` and `content`. -/
theorem migratePost_frame (p : Post) :
    (migratePost p).1.id = p.id ∧ (migratePost p).1.title = p.title ∧
    (migratePost p).1.image = p.image ∧ (migratePost p).1.date = p.date ∧
    (migratePost p).1.sectionId = p.sectionId := by
  unfold migratePost migrateStep2 migrateStep1
  repeat' split
  all_goals simp

/-!
`createBlock` (src/unnamed/part_000 lines 433-443).  The fresh id
`Date.now() + Math.random()` is injected as the `newId` argument (the spec
itself asks for a swappable id-generation strategy).  Keys appear in spread
order: the `base` keys first, then the variant extras.
-/

def createBlock (newId : JsVal) (type : String) : JsVal :=
  let base : List (String × JsVal) :=
    [("id", newId), ("type", .str type), ("size", .str "full")]
  match type with
  | "heading" => .obj (base ++ [("content", .str ""), ("level", .num 2 0)])
  | "paragraph" => .obj (base ++ [("content", .str "")])
  | "image" => .obj (base ++ [("url", .str ""), ("alt", .str "")])
  | "columns" => .obj (base ++ [("columns", .num 2 0), ("children", .arr [.arr [], .arr []])])
  | "grid" => .obj (base ++ [("cols", .num 3 0), ("gap", .num 16 0), ("children", .arr [])])
  | _ => .obj base

/-!
`handleDragEnd` (src/unnamed/part_000 lines 1016-1023) and the `arrayMove`
helper it calls from `@dnd-kit/sortable`:
```js
export function arrayMove(array, from, to) {
  const newArray = array.slice();
  newArray.splice(to < 0 ? newArray.length + to : to, 0, newArray.splice(from, 1)[0]);
  return newArray;
}
```
-/

/-- JS strict equality `===` as used on block ids.  Ids are primitives
(numbers from `Date.now() + Math.random()`, or strings); two distinct
array/object values are never `===` (reference equality), modelled as
`false`.  Number equality compares values `m * 10^e`. -/
def jsStrictEq : JsVal → JsVal → Bool
  | .str a, .str b => a == b
  | .num m1 e1, .num m2 e2 =>
    if e1 ≤ e2 then m1 == m2 * 10 ^ (e2 - e1).toNat
    else m1 * 10 ^ (e1 - e2).toNat == m2
  | .bool a, .bool b => a == b
  | .null, .null => true
  | .undefined, .undefined => true
  | _, _ => false

/-- `Array.prototype.findIndex`: first matching index, `-1` if none. -/
def jsFindIndex (p : JsVal → Bool) (l : List JsVal) : Int :=
  match l.findIdx? p with
  | some i => (i : Int)
  | none => -1

/-- `Array.prototype.splice` start-index normalization: negative indices
count from the end, clamped to `[0, len]`. -/
def spliceStart (len : Nat) (start : Int) : Nat :=
  if start < 0 then ((len : Int) + start).toNat else min start.toNat len

/-- `arrayMove(array, from, to)` as implemented by `@dnd-kit/sortable`:
remove one element at `from` (`splice(from, 1)[0]`, which is `undefined`
when `from` is past the end) and insert it at `to` (counted from the end
when negative, relative to the shortened array). -/
def arrayMove (l : List JsVal) (fromI toI : Int) : List JsVal :=
  let s := spliceStart l.length fromI
  let x := (l.get? s).getD JsVal.undefined
  let l1 := l.take s ++ l.drop (s + 1)
  let pos : Int := if toI < 0 then (l1.length : Int) + toI else toI
  let s2 := spliceStart l1.length pos
  l1.take s2 ++ x :: l1.drop s2

/-- `handleDragEnd`: if the dragged id differs from the drop-target id, look
both ids up in the addressed sibling list and `arrayMove` between the two
indices; otherwise leave the list untouched.  `overId` stands for
`over?.id` for a drop on a target (`over` non-null); a drop outside every
target would make the source throw on `over.id` before reordering and is
outside the claims' scope. -/
def handleDragEnd (activeId overId : JsVal) (blocksList : List JsVal) : List JsVal :=
  if jsStrictEq activeId overId then blocksList
  else
    arrayMove blocksList
      (jsFindIndex (fun b => jsStrictEq (getField b "id") activeId) blocksList)
      (jsFindIndex (fun b => jsStrictEq (getField b "id") overId) blocksList)

/-!
`ColumnsBlock`'s column-count change handler (src/unnamed/part_000 lines
571-590):
```js
const cols = +e.target.value;
const children = Array(cols).fill(null).map((_, i) => block.children[i] || []);
onUpdate({ ...block, columns: cols, children });
```
-/

def setFieldList : List (String × JsVal) → String → JsVal → List (String × JsVal)
  | [], k, v => [(k, v)]
  | (k2, v2) :: rest, k, v =>
    if k2 == k then (k2, v) :: rest else (k2, v2) :: setFieldList rest k v

/-- Object spread-update `{ ...block, k: v }` for object blocks: the value
at an existing key is replaced in place, a missing key is appended.
(Spreading a primitive yields a fresh `{ k: v }`; blocks are always
objects.) -/
def setField : JsVal → String → JsVal → JsVal
  | .obj fs, k, v => .obj (setFieldList fs k v)
  | _, k, v => .obj [(k, v)]

/-- JS indexing `a[i]`: `undefined` out of range or on a non-array. -/
def jsIndex (v : JsVal) (i : Nat) : JsVal :=
  match v with
  | .arr l => l.getD i .undefined
  | _ => .undefined

/-- JS `a || b`. -/
def jsOr (a b : JsVal) : JsVal := if jsTruthy a then a else b

/-- The handler body: rebuild `children` with `cols` entries, taking
`block.children[i] || []`, and update the block. -/
def columnsSetCount (block : JsVal) (cols : Nat) : JsVal :=
  let children := (List.range cols).map
    (fun i => jsOr (jsIndex (getField block "children") i) (.arr []))
  setField (setField block "columns" (.num cols 0)) "children" (.arr children)

/-!
`ensureUniqueId` (src/unnamed/part_000 lines 28-36, identical copy in
src/config.js lines 182-190):
```js
function ensureUniqueId(baseId, posts) {
  let id = baseId;
  let n = 2;
  const hasId = (x) => posts.some((p) => String(p.id) === String(x));
  while (hasId(id)) {
    id = `${baseId}-${n++}`;
  }
  return id;
}
```
-/

/-- The candidate `${baseId}-${n}` (template-literal number-to-string on a
nonnegative integer `n` is its decimal digits). -/
def candidateId (baseId : String) (n : Nat) : String :=
  baseId ++ "-" ++ natToString n

/-- `hasId(x)` for a string `x`: `String(x) = x`, and `===` between two
strings is string equality. -/
def hasId (posts : List Post) (x : String) : Bool :=
  posts.any (fun p => jsString p.id == x)

/-- The `while` loop, fuel-indexed on the iteration count.
`ensureUniqueId_spec` proves that the fuel `posts.length + 2` is never
exhausted, so this is the loop's exact behaviour. -/
def ensureUniqueIdGo (baseId : String) (posts : List Post) : Nat → String → Nat → String
  | 0, id, _ => id
  | fuel+1, id, n =>
    if hasId posts id then ensureUniqueIdGo baseId posts fuel (candidateId baseId n) (n + 1)
    else id

def ensureUniqueId (baseId : String) (posts : List Post) : String :=
  ensureUniqueIdGo baseId posts (posts.length + 2) baseId 2

/-- The sequence of ids the loop tries: the current `id`, then
`baseId-n`, `baseId-(n+1)`, …. -/
def candSeq (baseId id : String) (n : Nat) : Nat → String
  | 0 => id
  | k+1 => candidateId baseId (n + k)

end Mycms

namespace Mycms

/-- Little-endian decimal decode, the left inverse of `natDigitsLE`. -/
def ofDigitsLE : List Nat → Nat
  | [] => 0
  | d :: ds => d + 10 * ofDigitsLE ds

theorem ofDigitsLE_natDigitsLE (n : Nat) : ofDigitsLE (natDigitsLE n) = n := by
  induction n using Nat.strong_induction_on with
  | _ n ih =>
    match n with
    | 0 => simp [natDigitsLE, ofDigitsLE]
    | m+1 =>
      rw [natDigitsLE, ofDigitsLE]
      rw [ih ((m+1)/10) (Nat.div_lt_self (Nat.succ_pos m) (by omega))]
      omega

theorem natDigitsLE_lt_ten (n : Nat) : ∀ d ∈ natDigitsLE n, d < 10 := by
  induction n using Nat.strong_induction_on with
  | _ n ih =>
    match n with
    | 0 => simp [natDigitsLE]
    | m+1 =>
      rw [natDigitsLE]
      intro d hd
      rcases List.mem_cons.mp hd with h | h
      · subst h; exact Nat.mod_lt _ (by omega)
      · exact ih ((m+1)/10) (Nat.div_lt_self (Nat.succ_pos m) (by omega)) d h

theorem charOf_val : ∀ d < 10, (Char.ofNat (48 + d)).toNat = 48 + d := by decide

theorem map_decode_map_charOf (ds : List Nat) (hd : ∀ d ∈ ds, d < 10) :
    (ds.map (fun d => Char.ofNat (48 + d))).map (fun c => c.toNat - 48) = ds := by
  induction ds with
  | nil => rfl
  | cons d rest ih =>
    rw [List.map_cons, List.map_cons, ih (fun x hx => hd x (List.mem_cons_of_mem _ hx))]
    have hdd : d < 10 := hd d (List.mem_cons_self _ _)
    have := charOf_val d hdd
    congr 1
    omega

/-- Decimal decode, a left inverse of `natToString`. -/
def decodeDigits (s : String) : Nat :=
  ofDigitsLE ((s.data.map (fun c => c.toNat - 48)).reverse)

theorem decode_natToString (n : Nat) : decodeDigits (natToString n) = n := by
  by_cases h0 : n = 0
  · subst h0; rfl
  · rw [natToString, if_neg h0]
    unfold decodeDigits
    rw [show (String.mk ((natDigitsLE n).reverse.map (fun d => Char.ofNat (48 + d)))).data =
        (natDigitsLE n).reverse.map (fun d => Char.ofNat (48 + d)) from rfl]
    rw [map_decode_map_charOf _ (fun d hd => natDigitsLE_lt_ten n d (List.mem_reverse.mp hd))]
    rw [List.reverse_reverse]
    exact ofDigitsLE_natDigitsLE n

theorem natToString_inj {n m : Nat} (h : natToString n = natToString m) : n = m := by
  have h2 := congrArg decodeDigits h
  rwa [decode_natToString, decode_natToString] at h2

theorem string_append_cancel_left {p a b : String} (h : p ++ a = p ++ b) : a = b := by
  cases p with
  | mk pd =>
    cases a with
    | mk ad =>
      cases b with
      | mk bd =>
        have hd := congrArg String.data h
        simp only [String.data_append] at hd
        have := List.append_cancel_left hd
        simp [this]

theorem candidateId_inj {baseId : String} {n m : Nat}
    (h : candidateId baseId n = candidateId baseId m) : n = m := by
  unfold candidateId at h
  exact natToString_inj (string_append_cancel_left h)

end Mycms

namespace Mycms

theorem candSeq_shift (baseId id : String) (n : Nat) :
    ∀ k, candSeq baseId (candidateId baseId n) (n + 1) k = candSeq baseId id n (k + 1) := by
  intro k
  cases k with
  | zero => simp [candSeq]
  | succ k =>
    simp only [candSeq]
    congr 1
    omega

theorem ensureUniqueIdGo_spec (baseId : String) (posts : List Post) :
    ∀ (fuel : Nat) (id : String) (n : Nat),
      (∃ k, k < fuel ∧ hasId posts (candSeq baseId id n k) = false) →
      ∃ k, ensureUniqueIdGo baseId posts fuel id n = candSeq baseId id n k ∧
        hasId posts (candSeq baseId id n k) = false ∧
        ∀ j, j < k → hasId posts (candSeq baseId id n j) = true := by
  intro fuel
  induction fuel with
  | zero =>
    rintro id n ⟨k, hk, _⟩
    omega
  | succ fuel ih =>
    rintro id n ⟨k, hk, hfree⟩
    by_cases hid : hasId posts id = true
    · rw [ensureUniqueIdGo, if_pos hid]
      have hk0 : k ≠ 0 := by
        intro h0
        subst h0
        simp only [candSeq] at hfree
        rw [hfree] at hid
        exact absurd hid (by simp)
      obtain ⟨k1, rfl⟩ := Nat.exists_eq_succ_of_ne_zero hk0
      have hfree2 : hasId posts (candSeq baseId (candidateId baseId n) (n + 1) k1) = false := by
        rw [candSeq_shift baseId id n k1]
        exact hfree
      obtain ⟨k2, hgo, hfree3, hmin⟩ := ih (candidateId baseId n) (n + 1) ⟨k1, by omega, hfree2⟩
      refine ⟨k2 + 1, ?_, ?_, ?_⟩
      · rw [hgo, candSeq_shift baseId id n k2]
      · rw [← candSeq_shift baseId id n k2]
        exact hfree3
      · intro j hj
        cases j with
        | zero => exact hid
        | succ j1 =>
          rw [← candSeq_shift baseId id n j1]
          exact hmin j1 (by omega)
    · rw [ensureUniqueIdGo, if_neg hid]
      refine ⟨0, rfl, ?_, by omega⟩
      have hfid : hasId posts id = false := by simpa using hid
      exact hfid

theorem hasId_iff_mem (posts : List Post) (x : String) :
    hasId posts x = true ↔ x ∈ posts.map (fun p => jsString p.id) := by
  unfold hasId
  rw [List.any_eq_true]
  constructor
  · rintro ⟨p, hp, hbeq⟩
    rw [List.mem_map]
    exact ⟨p, hp, by simpa using hbeq⟩
  · intro hm
    rw [List.mem_map] at hm
    obtain ⟨p, hp, he⟩ := hm
    exact ⟨p, hp, by simp [he]⟩

theorem exists_free_candidate (baseId : String) (posts : List Post) :
    ∃ k, k < posts.length + 2 ∧ hasId posts (candSeq baseId baseId 2 k) = false := by
  by_contra hall
  push_neg at hall
  have hall2 : ∀ k, k < posts.length + 2 → hasId posts (candSeq baseId baseId 2 k) = true := by
    intro k hk
    have := hall k hk
    revert this
    cases hasId posts (candSeq baseId baseId 2 k) <;> simp
  have hsub : ∀ i, i < posts.length + 1 →
      candidateId baseId (i + 2) ∈ posts.map (fun p => jsString p.id) := by
    intro i hi
    have h1 := hall2 (i + 1) (by omega)
    rw [show candSeq baseId baseId 2 (i + 1) = candidateId baseId (2 + i) from rfl] at h1
    rw [← hasId_iff_mem]
    rw [show i + 2 = 2 + i from by omega]
    exact h1
  have hLnodup : ((List.range (posts.length + 1)).map
      (fun i => candidateId baseId (i + 2))).Nodup := by
    refine List.Nodup.map ?_ (List.nodup_range _)
    intro a b hab
    have := candidateId_inj hab
    omega
  have hcard : ((List.range (posts.length + 1)).map
      (fun i => candidateId baseId (i + 2))).length ≤
      (posts.map (fun p => jsString p.id)).length := by
    calc ((List.range (posts.length + 1)).map (fun i => candidateId baseId (i + 2))).length
        = ((List.range (posts.length + 1)).map
            (fun i => candidateId baseId (i + 2))).toFinset.card :=
          (List.toFinset_card_of_nodup hLnodup).symm
      _ ≤ (posts.map (fun p => jsString p.id)).toFinset.card := by
          refine Finset.card_le_card ?_
          intro x hx
          rw [List.mem_toFinset] at hx ⊢
          rw [List.mem_map] at hx
          obtain ⟨i, hi, rfl⟩ := hx
          rw [List.mem_range] at hi
          exact hsub i hi
      _ ≤ (posts.map (fun p => jsString p.id)).length :=
          List.toFinset_card_le _
  simp only [List.length_map, List.length_range] at hcard
  omega

theorem ensureUniqueId_spec (baseId : String) (posts : List Post) :
    ∃ k, ensureUniqueId baseId posts = candSeq baseId baseId 2 k ∧
      hasId posts (candSeq baseId baseId 2 k) = false ∧
      ∀ j, j < k → hasId posts (candSeq baseId baseId 2 j) = true :=
  ensureUniqueIdGo_spec baseId posts (posts.length + 2) baseId 2
    (exists_free_candidate baseId posts)

end Mycms

namespace Mycms

theorem findIdx?_some_lt {p : JsVal → Bool} {l : List JsVal} {i : Nat}
    (h : l.findIdx? p = some i) : i < l.length :=
  (List.findIdx?_eq_some_iff_findIdx_eq.mp h).1

theorem arrayMove_nat (l : List JsVal) (i j : Nat) (hi : i < l.length) (hj : j < l.length) :
    arrayMove l (i : Int) (j : Int) =
      (l.eraseIdx i).take j ++ l[i] :: (l.eraseIdx i).drop j := by
  have h1 : ¬((i : Int) < 0) := by omega
  have h2 : ¬((j : Int) < 0) := by omega
  have hlen1 : (l.take i ++ l.drop (i + 1)).length = l.length - 1 := by
    simp only [List.length_append, List.length_take, List.length_drop]
    omega
  unfold arrayMove spliceStart
  simp only [h1, h2, if_false, Int.toNat_natCast]
  rw [Nat.min_eq_left (Nat.le_of_lt hi)]
  rw [List.get?_eq_getElem?, List.getElem?_eq_getElem hi, Option.getD_some]
  rw [hlen1, Nat.min_eq_left (by omega)]
  rw [List.eraseIdx_eq_take_drop_succ]

theorem perm_cons_eraseIdx (l : List JsVal) (i : Nat) (hi : i < l.length) :
    l.Perm (l[i] :: l.eraseIdx i) := by
  conv_lhs => rw [← List.take_append_drop i l]
  rw [List.drop_eq_getElem_cons hi, List.eraseIdx_eq_take_drop_succ]
  exact List.perm_middle

theorem eraseIdx_append_length (A B : List JsVal) (x : JsVal) :
    (A ++ x :: B).eraseIdx A.length = A ++ B := by
  induction A with
  | nil => simp [List.eraseIdx]
  | cons a as ih => simp [List.eraseIdx, ih]

theorem getElem?_append_length (A B : List JsVal) (x : JsVal) :
    (A ++ x :: B)[A.length]? = some x := by
  rw [List.getElem?_append_right (by omega)]
  simp

/-- `arrayMove` between two in-range indices is a permutation that puts the
element from index `i` at index `j`, leaving the relative order of the other
elements unchanged. -/
theorem arrayMove_perm (l : List JsVal) (i j : Nat) (hi : i < l.length) (hj : j < l.length) :
    (arrayMove l (i : Int) (j : Int)).Perm l ∧
    (arrayMove l (i : Int) (j : Int))[j]? = l[i]? ∧
    (arrayMove l (i : Int) (j : Int)).eraseIdx j = l.eraseIdx i := by
  rw [arrayMove_nat l i j hi hj]
  have hjlen : j ≤ (l.eraseIdx i).length := by
    rw [List.length_eraseIdx]
    simp [hi]
    omega
  have htake : ((l.eraseIdx i).take j).length = j := by
    rw [List.length_take]
    omega
  refine ⟨?_, ?_, ?_⟩
  · have p1 : ((l.eraseIdx i).take j ++ l[i] :: (l.eraseIdx i).drop j).Perm
        (l[i] :: ((l.eraseIdx i).take j ++ (l.eraseIdx i).drop j)) := List.perm_middle
    rw [List.take_append_drop] at p1
    exact p1.trans (perm_cons_eraseIdx l i hi).symm
  · have h := getElem?_append_length ((l.eraseIdx i).take j) ((l.eraseIdx i).drop j) l[i]
    rw [htake] at h
    rw [h, List.getElem?_eq_getElem hi]
  · have h := eraseIdx_append_length ((l.eraseIdx i).take j) ((l.eraseIdx i).drop j) l[i]
    rw [htake] at h
    rw [h, List.take_append_drop]

end Mycms

namespace Mycms

theorem lookup_cons_kv (a k : String) (v : JsVal) (rest : List (String × JsVal)) :
    ((k, v) :: rest).lookup a = if a = k then some v else rest.lookup a := by
  by_cases h : a = k
  · simp [List.lookup, h]
  · have hb : (a == k) = false := by simpa using h
    simp [List.lookup, hb, h]

theorem lookup_setFieldList_self (fs : List (String × JsVal)) (k : String) (v : JsVal) :
    (setFieldList fs k v).lookup k = some v := by
  induction fs with
  | nil => simp [setFieldList, lookup_cons_kv]
  | cons a rest ih =>
    obtain ⟨k2, v2⟩ := a
    by_cases hk : k2 = k
    · subst hk; simp [setFieldList, lookup_cons_kv]
    · rw [setFieldList, if_neg (by simpa using hk), lookup_cons_kv, if_neg (Ne.symm hk)]
      exact ih

theorem lookup_setFieldList_ne (fs : List (String × JsVal)) (k k2 : String) (v : JsVal)
    (h : k ≠ k2) : (setFieldList fs k v).lookup k2 = fs.lookup k2 := by
  induction fs with
  | nil =>
    rw [show setFieldList [] k v = [(k, v)] from rfl, lookup_cons_kv, if_neg (Ne.symm h)]
  | cons a rest ih =>
    obtain ⟨k3, v3⟩ := a
    by_cases hk : k3 = k
    · subst hk
      rw [setFieldList, if_pos (by simp), lookup_cons_kv, lookup_cons_kv,
        if_neg (Ne.symm h), if_neg (Ne.symm h)]
    · rw [setFieldList, if_neg (by simpa using hk), lookup_cons_kv, lookup_cons_kv]
      split
      · rfl
      · exact ih

theorem getField_setField_self (v : JsVal) (k : String) (x : JsVal) :
    getField (setField v k x) k = x := by
  cases v <;> simp [setField, getField, lookup_cons_kv, lookup_setFieldList_self]

theorem getField_setField_ne (v : JsVal) (k k2 : String) (x : JsVal) (h : k ≠ k2) :
    getField (setField v k x) k2 = getField v k2 := by
  cases v <;>
    simp [setField, getField, lookup_cons_kv, lookup_setFieldList_ne _ _ _ _ h, Ne.symm h]

end Mycms

namespace Mycms

/-- C6 machinery: the resize handler keeps `children.length == columnCount`,
preserves surviving columns by index, and pads with empty sequences. -/
theorem columnsSetCount_spec (block : JsVal) (cols : Nat) (oldCh : List JsVal)
    (hch : getField block "children" = JsVal.arr oldCh)
    (hcols : ∀ x ∈ oldCh, ∃ g, x = JsVal.arr g) :
    ∃ newCh,
      getField (columnsSetCount block cols) "children" = JsVal.arr newCh ∧
      getField (columnsSetCount block cols) "columns" = JsVal.num cols 0 ∧
      newCh.length = cols ∧
      (∀ i, i < cols → i < oldCh.length → newCh[i]? = oldCh[i]?) ∧
      (∀ i, oldCh.length ≤ i → i < cols → newCh[i]? = some (JsVal.arr [])) := by
  refine ⟨(List.range cols).map
    (fun i => jsOr (jsIndex (getField block "children") i) (.arr [])), ?_, ?_, ?_, ?_, ?_⟩
  · rw [columnsSetCount, getField_setField_self]
  · rw [columnsSetCount, getField_setField_ne _ _ _ _ (by decide), getField_setField_self]
  · simp
  · intro i hic hil
    rw [List.getElem?_map, List.getElem?_range hic, hch]
    rw [Option.map_some']
    obtain ⟨g, hg⟩ := hcols oldCh[i] (List.getElem_mem hil)
    have hidx : jsIndex (JsVal.arr oldCh) i = oldCh[i] := by
      simp [jsIndex, List.getD, List.getElem?_eq_getElem hil]
    rw [hidx, List.getElem?_eq_getElem hil, jsOr, if_pos ?_]
    rw [hg]
    simp [jsTruthy]
  · intro i hle hic
    rw [List.getElem?_map, List.getElem?_range hic, hch]
    rw [Option.map_some']
    have hidx : jsIndex (JsVal.arr oldCh) i = JsVal.undefined := by
      simp [jsIndex, List.getD, List.getElem?_eq_none (by omega : oldCh.length ≤ i)]
    rw [hidx]
    simp [jsOr, jsTruthy]

end Mycms

namespace Mycms

theorem migratePostsIfNeeded_posts (d : StoredData) :
    (migratePostsIfNeeded d).2.posts = d.posts.map (fun p => (migratePost p).1) := by
  unfold migratePostsIfNeeded
  simp [List.map_map]

theorem migratePostsIfNeeded_idem (d : StoredData) :
    migratePostsIfNeeded (migratePostsIfNeeded d).2 = (false, (migratePostsIfNeeded d).2) := by
  have hposts := migratePostsIfNeeded_posts d
  have hsec : (migratePostsIfNeeded d).2.sections = d.sections := rfl
  have hnext : (migratePostsIfNeeded d).2.nextSectionId = d.nextSectionId := rfl
  have hchanged : ((migratePostsIfNeeded d).2.posts.map migratePost).any (fun r => r.2) = false := by
    rw [hposts, List.map_map]
    rw [List.any_eq_false]
    intro x hx
    rw [List.mem_map] at hx
    obtain ⟨p, hp, hpx⟩ := hx
    have := migratePost_idem p
    simp only [Function.comp_apply] at hpx
    rw [this] at hpx
    subst hpx
    simp
  have hposts2 : ((migratePostsIfNeeded d).2.posts.map migratePost).map (fun r => r.1) =
      (migratePostsIfNeeded d).2.posts := by
    rw [hposts, List.map_map, List.map_map]
    apply List.map_congr_left
    intro p _
    simp only [Function.comp_apply]
    rw [migratePost_idem p]
  unfold migratePostsIfNeeded
  rw [Prod.ext_iff]
  constructor
  · exact hchanged
  · show StoredData.mk _ _ _ = _
    rw [StoredData.mk.injEq]
    refine ⟨rfl, ?_, rfl⟩
    exact hposts2

theorem migratePostsIfNeeded_frame (d : StoredData) :
    (migratePostsIfNeeded d).2.sections = d.sections ∧
    (migratePostsIfNeeded d).2.nextSectionId = d.nextSectionId ∧
    (migratePostsIfNeeded d).2.posts.length = d.posts.length ∧
    (migratePostsIfNeeded d).2.posts.map Post.id = d.posts.map Post.id ∧
    (migratePostsIfNeeded d).2.posts.map Post.title = d.posts.map Post.title ∧
    (migratePostsIfNeeded d).2.posts.map Post.image = d.posts.map Post.image ∧
    (migratePostsIfNeeded d).2.posts.map Post.date = d.posts.map Post.date ∧
    (migratePostsIfNeeded d).2.posts.map Post.sectionId = d.posts.map Post.sectionId := by
  have hposts := migratePostsIfNeeded_posts d
  refine ⟨rfl, rfl, by rw [hposts]; simp, ?_, ?_, ?_, ?_, ?_⟩
  all_goals
    rw [hposts, List.map_map]
    apply List.map_congr_left
    intro p _
    simp only [Function.comp_apply]
  · exact (migratePost_frame p).1
  · exact (migratePost_frame p).2.1
  · exact (migratePost_frame p).2.2.1
  · exact (migratePost_frame p).2.2.2.1
  · exact (migratePost_frame p).2.2.2.2

end Mycms

namespace Mycms

/-- A node whose `type` property is a string is an object. -/
theorem obj_of_getField_str {node : JsVal} {k : String} {s : String}
    (h : getField node k = JsVal.str s) : ∃ fs, node = JsVal.obj fs := by
  cases node <;> simp [getField] at h
  exact ⟨_, rfl⟩

/-- C2 machinery: a heading or paragraph node with string content `c`
contributes the single line `c` when `c` is non-empty, and nothing when `c`
is empty. -/
theorem walk_heading_paragraph (node : JsVal) (c : String)
    (htype : getField node "type" = JsVal.str "heading" ∨
      getField node "type" = JsVal.str "paragraph")
    (hcontent : getField node "content" = JsVal.str c) :
    walk [] node = if c = "" then [] else [c] := by
  have hstr : ∃ s, getField node "type" = JsVal.str s :=
    htype.elim (fun h => ⟨_, h⟩) (fun h => ⟨_, h⟩)
  obtain ⟨s, hs⟩ := hstr
  obtain ⟨fs, rfl⟩ := obj_of_getField_str hs
  have htrue : (typeIs (JsVal.obj fs) "heading" || typeIs (JsVal.obj fs) "paragraph") = true := by
    rcases htype with h | h <;> simp [typeIs, h]
  simp only [walk, jsTruthy, Bool.not_true, Bool.false_eq_true, if_false]
  rw [if_pos htrue, hcontent]
  by_cases hc : c = ""
  · subst hc
    rw [if_neg (by decide), if_pos rfl]
  · have hemp : c.isEmpty = false :=
      Bool.eq_false_iff.mpr (fun h => hc ((String.isEmpty_iff c).mp h))
    rw [if_pos (by simp [jsTruthy, hemp]), if_neg hc]
    simp [jsString]

/-- C5 machinery: `handleDragEnd` with both ids present is a permutation; if
the ids differ, the moved element lands at the target's index and the other
elements keep their relative order. -/
theorem handleDragEnd_spec (activeId overId : JsVal) (l : List JsVal) (iA iO : Nat)
    (hA : l.findIdx? (fun b => jsStrictEq (getField b "id") activeId) = some iA)
    (hO : l.findIdx? (fun b => jsStrictEq (getField b "id") overId) = some iO) :
    (handleDragEnd activeId overId l).Perm l ∧
    (jsStrictEq activeId overId = false →
      (handleDragEnd activeId overId l)[iO]? = l[iA]? ∧
      (handleDragEnd activeId overId l).eraseIdx iO = l.eraseIdx iA) := by
  have hiA : iA < l.length := findIdx?_some_lt hA
  have hiO : iO < l.length := findIdx?_some_lt hO
  by_cases heq : jsStrictEq activeId overId = true
  · rw [handleDragEnd, if_pos heq]
    exact ⟨List.Perm.refl l, fun hfalse => by rw [heq] at hfalse; cases hfalse⟩
  · have heqf : jsStrictEq activeId overId = false := by
      revert heq; cases jsStrictEq activeId overId <;> simp
    rw [handleDragEnd, if_neg heq]
    rw [jsFindIndex, hA, jsFindIndex, hO]
    obtain ⟨hperm, hpos, horder⟩ := arrayMove_perm l iA iO hiA hiO
    exact ⟨hperm, fun _ => ⟨hpos, horder⟩⟩

end Mycms
namespace Mycms

theorem walk_arr (acc : List String) (l : List JsVal) :
    walk acc (JsVal.arr l) = walkList acc l := by
  simp only [walk, jsTruthy, Bool.not_true, Bool.false_eq_true, if_false]

/-- C1: migration is idempotent — for every stored document, a second
application of `migratePostsIfNeeded` to the document produced by the first
application reports `changed = false` and returns that document unchanged. -/
theorem c1_normalize_idempotent (d : StoredData) :
    migratePostsIfNeeded (migratePostsIfNeeded d).2 = (false, (migratePostsIfNeeded d).2) :=
  migratePostsIfNeeded_idem d

/-- C2 counterexample: the claim says an empty `content` yields an empty
line.  In the source, `if (node.content)` skips falsy content, so a
paragraph with empty content contributes no line at all: on
`[paragraph "", paragraph "X"]` the extractor returns `"X"`, not the
`"\n" ++ "X"` the claim predicts, and the empty-content paragraph alone
contributes `[]`, not `[""]`. -/
theorem c2_counterexample :
    walk [] (JsVal.obj [("id", .num 1 0), ("type", .str "paragraph"),
      ("size", .str "full"), ("content", .str "")]) = ([] : List String) ∧
    ([] : List String) ≠ [""] ∧
    extractPlainTextFromBlocks (JsVal.arr
      [JsVal.obj [("id", .num 1 0), ("type", .str "paragraph"), ("content", .str "")],
       JsVal.obj [("id", .num 2 0), ("type", .str "paragraph"), ("content", .str "X")]]) = "X" ∧
    ("X" : String) ≠ "\n" ++ "X" := by
  refine ⟨?_, by decide, ?_, by decide⟩
  · simp [walk, typeIs, getField, jsTruthy, List.lookup]
    decide
  · simp [extractPlainTextFromBlocks, walk, walkList, typeIs, getField, jsTruthy,
      jsString, List.lookup]
    decide

/-- C2 (amended): a Heading or Paragraph node with string content `c`
contributes `c` verbatim as one line exactly when `c` is non-empty; empty
content contributes no line.  The extractor joins the lines contributed by
the top-level blocks, in order, with a single newline and no trailing
newline. -/
theorem c2_extract_lines (l : List JsVal) (node : JsVal) (c : String)
    (htype : getField node "type" = JsVal.str "heading" ∨
      getField node "type" = JsVal.str "paragraph")
    (hcontent : getField node "content" = JsVal.str c) :
    extractPlainTextFromBlocks (JsVal.arr l) =
      String.intercalate "\n" (l.flatMap (fun b => walk [] b)) ∧
    walk [] node = (if c = "" then [] else [c]) := by
  constructor
  · rw [extractPlainTextFromBlocks, walk_arr, walkList_flatMap]
  · exact walk_heading_paragraph node c htype hcontent

theorem c2_extract_lines_witness :
    (getField (JsVal.obj [("type", .str "paragraph"), ("content", .str "X")]) "type" =
      JsVal.str "paragraph") ∧
    walk [] (JsVal.obj [("type", .str "paragraph"), ("content", .str "X")]) = ["X"] := by
  refine ⟨rfl, ?_⟩
  have h := (c2_extract_lines []
    (JsVal.obj [("type", .str "paragraph"), ("content", .str "X")]) "X"
    (Or.inr rfl) rfl).2
  rw [h, if_neg (by decide)]

/-- C3 counterexample: the factory's `default` branch silently returns the
bare base block `{ id, type, size: "full" }` for the unknown type
`"video"`; no `InvalidVariant` failure exists in the source. -/
theorem c3_counterexample :
    ("video" ∉ ["heading", "paragraph", "image", "columns", "grid"]) ∧
    createBlock (JsVal.str "fresh-id") "video" =
      JsVal.obj [("id", .str "fresh-id"), ("type", .str "video"), ("size", .str "full")] :=
  ⟨by decide, rfl⟩

/-- C3 (amended): for any type that is not one of the five variant tags,
`createBlock` does not fail — it silently returns the default base block
`{ id, type, size: "full" }` with no variant-specific fields. -/
theorem c3_unknown_type_returns_base (newId : JsVal) (t : String)
    (h1 : t ≠ "heading") (h2 : t ≠ "paragraph") (h3 : t ≠ "image")
    (h4 : t ≠ "columns") (h5 : t ≠ "grid") :
    createBlock newId t =
      JsVal.obj [("id", newId), ("type", .str t), ("size", .str "full")] := by
  unfold createBlock
  split <;> simp_all

theorem c3_unknown_type_returns_base_witness :
    ("video" : String) ≠ "heading" ∧
    createBlock (JsVal.str "fresh-id") "video" =
      JsVal.obj [("id", .str "fresh-id"), ("type", .str "video"), ("size", .str "full")] :=
  ⟨by decide, c3_unknown_type_returns_base (JsVal.str "fresh-id") "video"
    (by decide) (by decide) (by decide) (by decide) (by decide)⟩

/-- C4 counterexample: the claim says reorder is a no-op when the moved id
is absent.  With `movedId = "zz"` absent from the three-block list,
`findIndex` returns `-1`, `arrayMove` removes the LAST element
(`splice(-1, 1)`) and re-inserts it at the target index: the list
`[a, b, c]` becomes `[a, c, b]`, not the unchanged input. -/
theorem c4_counterexample :
    ([JsVal.obj [("id", .str "a"), ("type", .str "paragraph")],
      JsVal.obj [("id", .str "b"), ("type", .str "paragraph")],
      JsVal.obj [("id", .str "c"), ("type", .str "paragraph")]].findIdx?
        (fun b => jsStrictEq (getField b "id") (.str "zz")) = none) ∧
    (handleDragEnd (.str "zz") (.str "b")
      [JsVal.obj [("id", .str "a"), ("type", .str "paragraph")],
       JsVal.obj [("id", .str "b"), ("type", .str "paragraph")],
       JsVal.obj [("id", .str "c"), ("type", .str "paragraph")]]).map
      (fun b => getField b "id") = [.str "a", .str "c", .str "b"] ∧
    handleDragEnd (.str "zz") (.str "b")
      [JsVal.obj [("id", .str "a"), ("type", .str "paragraph")],
       JsVal.obj [("id", .str "b"), ("type", .str "paragraph")],
       JsVal.obj [("id", .str "c"), ("type", .str "paragraph")]] ≠
      [JsVal.obj [("id", .str "a"), ("type", .str "paragraph")],
       JsVal.obj [("id", .str "b"), ("type", .str "paragraph")],
       JsVal.obj [("id", .str "c"), ("type", .str "paragraph")]] := by
  refine ⟨rfl, rfl, fun h => ?_⟩
  have h2 := congrArg (List.map (fun b => getField b "id")) h
  rw [show (handleDragEnd (.str "zz") (.str "b")
      [JsVal.obj [("id", .str "a"), ("type", .str "paragraph")],
       JsVal.obj [("id", .str "b"), ("type", .str "paragraph")],
       JsVal.obj [("id", .str "c"), ("type", .str "paragraph")]]).map
      (fun b => getField b "id") = [.str "a", .str "c", .str "b"] from rfl] at h2
  simp [getField, List.lookup] at h2

/-- C4 (amended): `handleDragEnd` is a no-op whenever the dragged id equals
the drop-target id (`===`-equal primitive ids); when one of the ids is
absent from the sequence it is NOT in general a no-op (see the
counterexample). -/
theorem c4_reorder_noop_equal_ids (idv : JsVal) (l : List JsVal)
    (h : jsStrictEq idv idv = true) :
    handleDragEnd idv idv l = l := by
  rw [handleDragEnd, if_pos h]

theorem c4_reorder_noop_equal_ids_witness :
    jsStrictEq (.str "a") (.str "a") = true ∧
    handleDragEnd (.str "a") (.str "a")
      [JsVal.obj [("id", .str "a"), ("type", .str "paragraph")]] =
      [JsVal.obj [("id", .str "a"), ("type", .str "paragraph")]] :=
  ⟨by decide, c4_reorder_noop_equal_ids (.str "a") _ (by decide)⟩

/-- C5: when both ids occur in the sequence, `handleDragEnd` returns a
permutation of the input; when the ids differ, the moved element ends at
the index the target previously held, and removing it there recovers the
other elements in their original relative order.  In particular moving `c`
to `a`'s position in `[a, b, c]` yields `[c, a, b]`. -/
theorem c5_reorder_permutation :
    (∀ (activeId overId : JsVal) (l : List JsVal) (iA iO : Nat),
      l.findIdx? (fun b => jsStrictEq (getField b "id") activeId) = some iA →
      l.findIdx? (fun b => jsStrictEq (getField b "id") overId) = some iO →
      (handleDragEnd activeId overId l).Perm l ∧
      (jsStrictEq activeId overId = false →
        (handleDragEnd activeId overId l)[iO]? = l[iA]? ∧
        (handleDragEnd activeId overId l).eraseIdx iO = l.eraseIdx iA)) ∧
    handleDragEnd (.str "c") (.str "a")
      [JsVal.obj [("id", .str "a"), ("type", .str "paragraph")],
       JsVal.obj [("id", .str "b"), ("type", .str "paragraph")],
       JsVal.obj [("id", .str "c"), ("type", .str "paragraph")]] =
      [JsVal.obj [("id", .str "c"), ("type", .str "paragraph")],
       JsVal.obj [("id", .str "a"), ("type", .str "paragraph")],
       JsVal.obj [("id", .str "b"), ("type", .str "paragraph")]] :=
  ⟨handleDragEnd_spec, rfl⟩

theorem c5_reorder_permutation_witness :
    ([JsVal.obj [("id", .str "a"), ("type", .str "paragraph")],
      JsVal.obj [("id", .str "b"), ("type", .str "paragraph")],
      JsVal.obj [("id", .str "c"), ("type", .str "paragraph")]].findIdx?
        (fun b => jsStrictEq (getField b "id") (.str "c")) = some 2) ∧
    (handleDragEnd (.str "c") (.str "a")
      [JsVal.obj [("id", .str "a"), ("type", .str "paragraph")],
       JsVal.obj [("id", .str "b"), ("type", .str "paragraph")],
       JsVal.obj [("id", .str "c"), ("type", .str "paragraph")]]).Perm
      [JsVal.obj [("id", .str "a"), ("type", .str "paragraph")],
       JsVal.obj [("id", .str "b"), ("type", .str "paragraph")],
       JsVal.obj [("id", .str "c"), ("type", .str "paragraph")]] :=
  ⟨rfl, (c5_reorder_permutation.1 (.str "c") (.str "a")
    [JsVal.obj [("id", .str "a"), ("type", .str "paragraph")],
     JsVal.obj [("id", .str "b"), ("type", .str "paragraph")],
     JsVal.obj [("id", .str "c"), ("type", .str "paragraph")]] 2 0 rfl rfl).1⟩

/-- C6: after a `columnCount` change to any value `cols`, the rebuilt
`children` array has length `cols`, the surviving column indices keep their
contents unchanged, and newly added columns are empty sequences (the block
also records the new count). -/
theorem c6_columns_arity (block : JsVal) (cols : Nat) (oldCh : List JsVal)
    (hch : getField block "children" = JsVal.arr oldCh)
    (hcols : ∀ x ∈ oldCh, ∃ g, x = JsVal.arr g) :
    ∃ newCh,
      getField (columnsSetCount block cols) "children" = JsVal.arr newCh ∧
      getField (columnsSetCount block cols) "columns" = JsVal.num cols 0 ∧
      newCh.length = cols ∧
      (∀ i, i < cols → i < oldCh.length → newCh[i]? = oldCh[i]?) ∧
      (∀ i, oldCh.length ≤ i → i < cols → newCh[i]? = some (JsVal.arr [])) :=
  columnsSetCount_spec block cols oldCh hch hcols

theorem c6_columns_arity_witness :
    (getField (JsVal.obj [("id", .str "cb"), ("type", .str "columns"),
        ("columns", .num 2 0),
        ("children", .arr [.arr [.obj [("id", .str "x"), ("type", .str "paragraph"),
          ("content", .str "hello")]], .arr []])]) "children" =
      JsVal.arr [.arr [.obj [("id", .str "x"), ("type", .str "paragraph"),
        ("content", .str "hello")]], .arr []]) ∧
    ∃ newCh,
      getField (columnsSetCount (JsVal.obj [("id", .str "cb"), ("type", .str "columns"),
        ("columns", .num 2 0),
        ("children", .arr [.arr [.obj [("id", .str "x"), ("type", .str "paragraph"),
          ("content", .str "hello")]], .arr []])]) 3) "children" = JsVal.arr newCh ∧
      getField (columnsSetCount (JsVal.obj [("id", .str "cb"), ("type", .str "columns"),
        ("columns", .num 2 0),
        ("children", .arr [.arr [.obj [("id", .str "x"), ("type", .str "paragraph"),
          ("content", .str "hello")]], .arr []])]) 3) "columns" = JsVal.num 3 0 ∧
      newCh.length = 3 ∧
      (∀ i, i < 3 → i < 2 → newCh[i]? =
        [JsVal.arr [.obj [("id", .str "x"), ("type", .str "paragraph"),
          ("content", .str "hello")]], JsVal.arr []][i]?) ∧
      (∀ i, 2 ≤ i → i < 3 → newCh[i]? = some (JsVal.arr [])) := by
  refine ⟨rfl, ?_⟩
  have h := c6_columns_arity (JsVal.obj [("id", .str "cb"), ("type", .str "columns"),
    ("columns", .num 2 0),
    ("children", .arr [.arr [.obj [("id", .str "x"), ("type", .str "paragraph"),
      ("content", .str "hello")]], .arr []])]) 3
    [.arr [.obj [("id", .str "x"), ("type", .str "paragraph"), ("content", .str "hello")]],
      .arr []]
    rfl (by intro x hx; simp at hx; rcases hx with h | h <;> exact ⟨_, h⟩)
  simpa using h

end Mycms
namespace Mycms

/-- C7: normalizing a double-encoded post whose `blocks` field is the string
`[{"id":1,"type":"paragraph","content":"hi"}]` and whose `content` field
holds the same encoded string yields a real one-element block sequence,
regenerates `content` to `"hi"`, and reports the change. -/
theorem c7_double_encoded_migration :
    (migratePost (Post.mk (.str "p1") (.str "Post")
      (.str "[\x7b\"id\":1,\"type\":\"paragraph\",\"content\":\"hi\"\x7d]")
      (.str "[\x7b\"id\":1,\"type\":\"paragraph\",\"content\":\"hi\"\x7d]")
      .null (.str "2025-01-01") (.num 1 0))).2 = true ∧
    (migratePost (Post.mk (.str "p1") (.str "Post")
      (.str "[\x7b\"id\":1,\"type\":\"paragraph\",\"content\":\"hi\"\x7d]")
      (.str "[\x7b\"id\":1,\"type\":\"paragraph\",\"content\":\"hi\"\x7d]")
      .null (.str "2025-01-01") (.num 1 0))).1.blocks =
      JsVal.arr [.obj [("id", .num 1 0), ("type", .str "paragraph"), ("content", .str "hi")]] ∧
    (migratePost (Post.mk (.str "p1") (.str "Post")
      (.str "[\x7b\"id\":1,\"type\":\"paragraph\",\"content\":\"hi\"\x7d]")
      (.str "[\x7b\"id\":1,\"type\":\"paragraph\",\"content\":\"hi\"\x7d]")
      .null (.str "2025-01-01") (.num 1 0))).1.content = JsVal.str "hi" := by
  have hparse : tryParseJson "[\x7b\"id\":1,\"type\":\"paragraph\",\"content\":\"hi\"\x7d]" =
      some (.arr [.obj [("id", .num 1 0), ("type", .str "paragraph"),
        ("content", .str "hi")]]) := by rfl
  have hlook : looksLikeJsonArray
      (.str "[\x7b\"id\":1,\"type\":\"paragraph\",\"content\":\"hi\"\x7d]") = true := by rfl
  have hextract : extractPlainTextFromBlocks
      (.arr [.obj [("id", .num 1 0), ("type", .str "paragraph"),
        ("content", .str "hi")]]) = "hi" := by
    simp [extractPlainTextFromBlocks, walk, walkList, typeIs, getField, jsTruthy,
      jsString, List.lookup]
    decide
  have h1 : migrateStep1 (Post.mk (.str "p1") (.str "Post")
      (.str "[\x7b\"id\":1,\"type\":\"paragraph\",\"content\":\"hi\"\x7d]")
      (.str "[\x7b\"id\":1,\"type\":\"paragraph\",\"content\":\"hi\"\x7d]")
      .null (.str "2025-01-01") (.num 1 0)) =
      (Post.mk (.str "p1") (.str "Post") (.str "hi")
        (JsVal.arr [.obj [("id", .num 1 0), ("type", .str "paragraph"),
          ("content", .str "hi")]])
        .null (.str "2025-01-01") (.num 1 0), true) := by
    simp [migrateStep1, hparse, hlook, hextract]
  have h2 := @migrateStep2_arr
    (Post.mk (.str "p1") (.str "Post") (.str "hi")
      (JsVal.arr [.obj [("id", .num 1 0), ("type", .str "paragraph"),
        ("content", .str "hi")]])
      .null (.str "2025-01-01") (.num 1 0))
    [.obj [("id", .num 1 0), ("type", .str "paragraph"), ("content", .str "hi")]] rfl
  have hm : migratePost (Post.mk (.str "p1") (.str "Post")
      (.str "[\x7b\"id\":1,\"type\":\"paragraph\",\"content\":\"hi\"\x7d]")
      (.str "[\x7b\"id\":1,\"type\":\"paragraph\",\"content\":\"hi\"\x7d]")
      .null (.str "2025-01-01") (.num 1 0)) =
      (Post.mk (.str "p1") (.str "Post") (.str "hi")
        (JsVal.arr [.obj [("id", .num 1 0), ("type", .str "paragraph"),
          ("content", .str "hi")]])
        .null (.str "2025-01-01") (.num 1 0), true) := by
    unfold migratePost
    rw [h1]
    simp [h2]
  rw [hm]
  exact ⟨rfl, rfl, rfl⟩

/-- C8: for each of the five variant tags the factory returns a block with
the injected fresh id, `size = "full"`, and the variant defaults: heading
level 2 with empty content, paragraph with empty content, image with empty
url/alt, columns with count 2 and two empty column sequences, grid with 3
columns, gap 16 and no children.  (The source stores the column count under
the key `columns` and the grid column count under `cols`.) -/
theorem c8_factory_defaults (newId : JsVal) :
    createBlock newId "heading" =
      JsVal.obj [("id", newId), ("type", .str "heading"), ("size", .str "full"),
        ("content", .str ""), ("level", .num 2 0)] ∧
    createBlock newId "paragraph" =
      JsVal.obj [("id", newId), ("type", .str "paragraph"), ("size", .str "full"),
        ("content", .str "")] ∧
    createBlock newId "image" =
      JsVal.obj [("id", newId), ("type", .str "image"), ("size", .str "full"),
        ("url", .str ""), ("alt", .str "")] ∧
    createBlock newId "columns" =
      JsVal.obj [("id", newId), ("type", .str "columns"), ("size", .str "full"),
        ("columns", .num 2 0), ("children", .arr [.arr [], .arr []])] ∧
    createBlock newId "grid" =
      JsVal.obj [("id", newId), ("type", .str "grid"), ("size", .str "full"),
        ("cols", .num 3 0), ("gap", .num 16 0), ("children", .arr [])] :=
  ⟨rfl, rfl, rfl, rfl, rfl⟩

/-- C9: migration changes only `blocks` and `content` — post count and
order are preserved (elementwise maps agree), every other post field (id,
title, image, date, sectionId) is unchanged, and the document's other
top-level fields (`sections`, `nextSectionId`) are carried over. -/
theorem c9_migration_frame (d : StoredData) :
    (migratePostsIfNeeded d).2.sections = d.sections ∧
    (migratePostsIfNeeded d).2.nextSectionId = d.nextSectionId ∧
    (migratePostsIfNeeded d).2.posts.length = d.posts.length ∧
    (migratePostsIfNeeded d).2.posts.map Post.id = d.posts.map Post.id ∧
    (migratePostsIfNeeded d).2.posts.map Post.title = d.posts.map Post.title ∧
    (migratePostsIfNeeded d).2.posts.map Post.image = d.posts.map Post.image ∧
    (migratePostsIfNeeded d).2.posts.map Post.date = d.posts.map Post.date ∧
    (migratePostsIfNeeded d).2.posts.map Post.sectionId = d.posts.map Post.sectionId :=
  migratePostsIfNeeded_frame d

/-- C10: `ensureUniqueId` returns an id whose string form collides with no
existing post id's string form; an un-taken `baseId` is returned unchanged,
and a taken `baseId` yields `baseId-n` for the smallest `n ≥ 2` that avoids
every collision (the loop provably exits before its fuel runs out). -/
theorem c10_ensure_unique_id (baseId : String) (posts : List Post) :
    hasId posts (ensureUniqueId baseId posts) = false ∧
    (hasId posts baseId = false → ensureUniqueId baseId posts = baseId) ∧
    (hasId posts baseId = true →
      ∃ n, 2 ≤ n ∧ ensureUniqueId baseId posts = candidateId baseId n ∧
        hasId posts (candidateId baseId n) = false ∧
        ∀ m, 2 ≤ m → m < n → hasId posts (candidateId baseId m) = true) := by
  obtain ⟨k, hres, hfree, hmin⟩ := ensureUniqueId_spec baseId posts
  refine ⟨by rw [hres]; exact hfree, ?_, ?_⟩
  · intro hbase
    rcases Nat.eq_zero_or_pos k with rfl | hk
    · exact hres
    · have h0 := hmin 0 hk
      rw [show candSeq baseId baseId 2 0 = baseId from rfl] at h0
      rw [h0] at hbase
      cases hbase
  · intro hbase
    rcases Nat.eq_zero_or_pos k with rfl | hk
    · rw [show candSeq baseId baseId 2 0 = baseId from rfl] at hfree
      rw [hfree] at hbase
      cases hbase
    · obtain ⟨k1, rfl⟩ := Nat.exists_eq_succ_of_ne_zero (by omega : k ≠ 0)
      refine ⟨2 + k1, by omega, ?_, ?_, ?_⟩
      · rw [hres]
        rfl
      · rw [show candidateId baseId (2 + k1) = candSeq baseId baseId 2 (k1 + 1) from rfl]
        exact hfree
      · intro m hm2 hmlt
        obtain ⟨j, rfl⟩ : ∃ j, m = 2 + j := ⟨m - 2, by omega⟩
        have hj := hmin (j + 1) (by omega)
        rw [show candSeq baseId baseId 2 (j + 1) = candidateId baseId (2 + j) from rfl] at hj
        exact hj

theorem c10_ensure_unique_id_witness :
    hasId [Post.mk (.str "p") .null .null .null .null .null .null,
      Post.mk (.str "p-2") .null .null .null .null .null .null] "p" = true ∧
    (∃ n, 2 ≤ n ∧
      ensureUniqueId "p" [Post.mk (.str "p") .null .null .null .null .null .null,
        Post.mk (.str "p-2") .null .null .null .null .null .null] = candidateId "p" n ∧
      hasId [Post.mk (.str "p") .null .null .null .null .null .null,
        Post.mk (.str "p-2") .null .null .null .null .null .null] (candidateId "p" n) = false ∧
      ∀ m, 2 ≤ m → m < n →
        hasId [Post.mk (.str "p") .null .null .null .null .null .null,
          Post.mk (.str "p-2") .null .null .null .null .null .null]
          (candidateId "p" m) = true) := by
  have hyp : hasId [Post.mk (.str "p") .null .null .null .null .null .null,
      Post.mk (.str "p-2") .null .null .null .null .null .null] "p" = true := by
    simp [hasId, jsString]
  exact ⟨hyp, (c10_ensure_unique_id "p"
    [Post.mk (.str "p") .null .null .null .null .null .null,
      Post.mk (.str "p-2") .null .null .null .null .null .null]).2.2 hyp⟩

end Mycms
